import Mathlib

/-!
Verification development for `bin/analyze_brain_data.py` of the
`single_cell_reducer` repository.

The analysis pipeline of that script is embedded shallowly below:
pure Python expressions become Lean functions, Python lists become
`List`, Python dicts (whose iteration order is insertion order) become
association lists `List (key × value)`, real arithmetic on fractions is
modelled over `ℚ`, and Python's clamping slice `l[:k]` becomes
`List.take k l`.  Label values (cell-type names) are strings in the
program; every operation the program performs on them is equality or
ordering, so the embedding is generic over a linearly ordered label
type `α`, instantiated at `String` for the program itself and at small
concrete types in closed evaluations.  Each definition carries a
comment pointing at the source lines it embeds.
-/

/-- Python's substring membership test over explicit character lists:
`containsSub pat hay` models `pat in hay` for strings, by checking
whether `pat` is a prefix of some suffix of `hay`. -/
def containsSub (pat : List Char) : List Char → Bool
  | [] => pat.isEmpty
  | c :: t => pat.isPrefixOf (c :: t) || containsSub pat t

/-- Python's `pat in s` on strings (substring containment), as used by
`'control' in query_type` / `'disease' in query_type` on lines 244-246
of `analyze_brain_data.py`. -/
def pyIn (pat s : String) : Bool := containsSub pat.toList s.toList

/-- Lexicographic strict order on the sort keys
`(group size, -(first index in rank order))` used by `classify`
(line 382): Python compares such tuples lexicographically. -/
def keyLt (p q : ℕ × ℤ) : Prop := p.1 < q.1 ∨ (p.1 = q.1 ∧ p.2 < q.2)

instance (p q : ℕ × ℤ) : Decidable (keyLt p q) :=
  inferInstanceAs (Decidable (p.1 < q.1 ∨ (p.1 = q.1 ∧ p.2 < q.2)))

/-- Run-length encoding of a list: consecutive equal elements are
grouped into `(value, run length)` pairs.  This embeds
`itertools.groupby` together with `len(list(xv[1]))` as used by
`classify` (line 382): Python's `groupby` yields each maximal run of
consecutive equal values once, and the group's length is the run
length. -/
def runs [DecidableEq α] : List α → List (α × ℕ)
  | [] => []
  | a :: t =>
    match runs t with
    | [] => [(a, 1)]
    | (b, n) :: rest => if a = b then (a, n + 1) :: rest else (a, 1) :: (b, n) :: rest

/-- Python's `max(iterable, key=...)` specialised to keys in `ℕ × ℤ`
compared lexicographically.  Returns `none` on the empty list (Python
raises `ValueError` there); on ties it keeps the earliest element, as
Python's `max` does (it replaces the current best only on strict
increase). -/
def pyMax (key : β → ℕ × ℤ) : List β → Option β
  | [] => none
  | b :: bs => some (bs.foldl (fun best x => if keyLt (key best) (key x) then x else best) b)

/-- Embedding of `classify` (lines 379-382 of `analyze_brain_data.py`):

`max(g(sorted(sorted_neighbors)), key=lambda xv: (len(list(xv[1])), -sorted_neighbors.index(xv[0])))[0]`

The input list is in neighbor rank order (ascending distance).  It is
sorted (`insertionSort` by `≤`; over a linear order every correct sort
of a list yields the same result, so this models Python's `sorted`),
grouped into runs (`groupby`), and the group with the lexicographically
greatest key `(run length, -(first index in the rank-ordered list))`
is selected; its value is returned. -/
def classify [LinearOrder α] (l : List α) : Option α :=
  (pyMax (fun r => (r.2, -(l.indexOf r.1 : ℤ))) (runs (l.insertionSort (· ≤ ·)))).map Prod.fst

/-- Embedding of `nearest_dist_to_each_type` (lines 154-159):
iterate over `zip(distances, labels)` in rank order and record each
label's distance the first time the label is seen; later occurrences
are ignored.  The Python dict (insertion-ordered) is modelled as an
association list extended at the back. -/
def nearest_dist_to_each_type [DecidableEq α] (distances : List ℚ) (labels : List α) :
    List (α × ℚ) :=
  (distances.zip labels).foldl
    (fun acc p => if (acc.map Prod.fst).contains p.2 then acc else acc ++ [(p.2, p.1)]) []

/-- `np.mean` over a rational-valued list (sum divided by length);
used for `np.mean(sorted_distances[:5])` on line 442.  `np.mean` of an
empty input is NaN; the callers below only use nonempty inputs. -/
def npMean (l : List ℚ) : ℚ := l.sum / l.length

/-- Embedding of the coarse control/disease aggregation loop of
`make_classification_histograms` (lines 230-247): iterating over the
`classifications` dict (insertion order), a group's classification
list is appended to `control_clfs` when the group name contains
`"control"`, otherwise to `disease_clfs` when it contains
`"disease"`, and is skipped otherwise.  Returns
`(control_clfs, disease_clfs)`. -/
def coarseClfs (cls : List (String × List α)) : List α × List α :=
  cls.foldl
    (fun acc p =>
      if pyIn "control" p.1 then (acc.1 ++ p.2, acc.2)
      else if pyIn "disease" p.1 then (acc.1, acc.2 ++ p.2)
      else acc)
    ([], [])

/-- Embedding of `np.union1d(db_types_control, db_types_disease)`
(line 272): the sorted list of distinct labels occurring in either
classification list. -/
def mergedDbTypes [LinearOrder α] (c d : List α) : List α :=
  (c ++ d).dedup.insertionSort (· ≤ ·)

/-- Raw per-label control fractions (lines 273-282): for each merged
label, the count of that label in `control_clfs` divided by
`len(control_clfs)`.  The division is written exactly as in the
source, unguarded; `c = []` makes the divisor `0` (NumPy emits NaN
there, see the C8 analysis). -/
def controlFracs [LinearOrder α] (c d : List α) : List ℚ :=
  (mergedDbTypes c d).map (fun lab => (c.count lab : ℚ) / (c.length : ℚ))

/-- Raw per-label disease fractions (lines 283-292), mirror of
`controlFracs`. -/
def diseaseFracs [LinearOrder α] (c d : List α) : List ℚ :=
  (mergedDbTypes c d).map (fun lab => (d.count lab : ℚ) / (d.length : ℚ))

/-- The raw contingency table by column (lines 272-291, 323): for each
merged label, the pair of its counts in the control and disease lists. -/
def contingencyColumns [LinearOrder α] (c d : List α) : List (α × ℕ × ℕ) :=
  (mergedDbTypes c d).map (fun lab => (lab, c.count lab, d.count lab))

/-- Zero-column filtering (line 329):
`keep = [i for i in range(...) if 0 not in contingency_table[:, i]]` —
the columns of the contingency table in which neither count is zero. -/
def keptColumns [LinearOrder α] (c d : List α) : List (α × ℕ × ℕ) :=
  (contingencyColumns c d).filter (fun t => !(t.2.1 == 0 || t.2.2 == 0))

/-- Control fractions after zero-column filtering (lines 331-332):
each kept control count divided by the sum of the kept control
counts.  When no column is kept the list is empty and no division is
performed (as in NumPy, where an empty array is divided elementwise). -/
def filteredControlFracs [LinearOrder α] (c d : List α) : List ℚ :=
  (keptColumns c d).map
    (fun t => (t.2.1 : ℚ) / (((keptColumns c d).map (fun s => (s.2.1 : ℚ))).sum))

/-- Disease fractions after zero-column filtering (lines 333-334),
mirror of `filteredControlFracs`. -/
def filteredDiseaseFracs [LinearOrder α] (c d : List α) : List ℚ :=
  (keptColumns c d).map
    (fun t => (t.2.2 : ℚ) / (((keptColumns c d).map (fun s => (s.2.2 : ℚ))).sum))

/-- One call to `scipy.stats.binom_test`.  The script calls
`binom_test(count1, count1+count2, p=0.5)` (lines 317 and 349); the
`alternative` keyword is left at scipy's default `"two-sided"`, and
`binom_test` is scipy's exact binomial test.  The record captures the
arguments of the call. -/
structure BinomCall where
  successes : ℤ
  trials : ℤ
  p : ℚ
  alternative : String
deriving DecidableEq

/-- The integer inputs of one binomial test (lines 315-316 and
347-348): `count1 = math.floor(1000*height1)`,
`count2 = math.floor(1000*height2)`, where the bar heights are the
control and disease fractions of one column; the test receives
`(count1, count1 + count2)`. -/
def binomInputs (cf df : ℚ) : ℤ × ℤ :=
  (⌊(1000 : ℚ) * cf⌋, ⌊(1000 : ℚ) * cf⌋ + ⌊(1000 : ℚ) * df⌋)

/-- The `binom_test` calls made over the raw contingency table (lines
312-318): one per column, pairing the column's control fraction with
its disease fraction.  The plot permutes columns by descending control
fraction before iterating, but applies the same permutation to both
fraction arrays, so the per-column (control, disease) pairing is
unchanged; the calls are modelled here in merged-label order. -/
def binomCalls [LinearOrder α] (c d : List α) : List BinomCall :=
  ((controlFracs c d).zip (diseaseFracs c d)).map
    (fun p => ⟨(binomInputs p.1 p.2).1, (binomInputs p.1 p.2).2, 1 / 2, "two-sided"⟩)

/-- The `binom_test` calls made over the zero-filtered table (lines
344-350), mirror of `binomCalls` on the filtered fractions. -/
def filteredBinomCalls [LinearOrder α] (c d : List α) : List BinomCall :=
  ((filteredControlFracs c d).zip (filteredDiseaseFracs c d)).map
    (fun p => ⟨(binomInputs p.1 p.2).1, (binomInputs p.1 p.2).2, 1 / 2, "two-sided"⟩)

/-- The selection loop of `enriched_brain_cortex_plot_and_data`
(lines 368-377): `keep` collects `item[0]` (the sample identifier) of
every entry of `count_list` whose `item[1]` (count-A, the
brain/cortex count among the top 100 neighbors) strictly exceeds the
threshold.  Entries are `(identifier, count-A, count-B)`. -/
def enrichedKeep (countList : List (String × ℕ × ℕ)) (threshold : ℕ) : List String :=
  (countList.filter (fun e => threshold < e.2.1)).map (fun e => e.1)

/-- The report written by `enriched_brain_cortex_plot_and_data`
(lines 370-376): for each selected entry, its identifier together
with its 5 nearest database cell identifiers, looked up in the
`top_5_nearest_cells` dict (modelled as the function `top5`). -/
def enrichedReport (countList : List (String × ℕ × ℕ)) (top5 : String → List String)
    (threshold : ℕ) : List (String × List String) :=
  (countList.filter (fun e => threshold < e.2.1)).map (fun e => (e.1, top5 e.1))

-- Smoke tests: concrete evaluations of the embedded operations.
example : pyIn "disease" "control_disease" = true := by decide
example : pyIn "control" "disease_3m" = false := by decide
example : classify ([0, 0, 1] : List ℕ) = some 0 := by decide
example : classify ([1, 0, 0] : List ℕ) = some 0 := by decide
example : classify ([1, 0, 1, 0] : List ℕ) = some 1 := by decide
example : classify ([] : List ℕ) = none := by rfl
example : nearest_dist_to_each_type [1, 2, 3] ([5, 4, 4] : List ℕ) = [(5, 1), (4, 2)] := by
  decide
example : npMean [1, 2] = 3 / 2 := by norm_num [npMean]
example : coarseClfs [("control_3m", [0, 1]), ("disease_3m", [2]), ("other", [3])] =
    (([0, 1], [2]) : List ℕ × List ℕ) := by decide
example : mergedDbTypes ([5, 5, 7] : List ℕ) [6, 7] = [5, 6, 7] := by decide
example : keptColumns ([0, 0, 1] : List ℕ) [0, 1, 1] = [(0, 2, 1), (1, 1, 2)] := by decide
example : keptColumns ([0] : List ℕ) [1] = [] := by decide
example : controlFracs ([0, 0, 1] : List ℕ) [0, 1, 1] = [2/3, 1/3] := by
  norm_num [controlFracs, mergedDbTypes]
example : enrichedKeep [("s1", 80, 0), ("s2", 65, 0), ("s3", 71, 0)] 70 = ["s1", "s3"] := by
  decide
example : binomInputs (667/1000) (333/1000) = (667, 1000) := by norm_num [binomInputs]
example : binomCalls ([0, 0, 1] : List ℕ) [0, 1, 1] =
    [⟨666, 999, 1/2, "two-sided"⟩, ⟨333, 999, 1/2, "two-sided"⟩] := by
  norm_num [binomCalls, binomInputs, controlFracs, diseaseFracs, mergedDbTypes]

/-! ## Properties of the sort key order used by `classify` -/

theorem keyLt_irrefl (p : ℕ × ℤ) : ¬ keyLt p p := by
  unfold keyLt; omega

theorem keyLt_trans {p q r : ℕ × ℤ} (h1 : keyLt p q) (h2 : keyLt q r) : keyLt p r := by
  unfold keyLt at *; omega

theorem keyLt_resolve {p q r : ℕ × ℤ} (h1 : keyLt p r) (h2 : ¬ keyLt q r) (h3 : ¬ keyLt p q) :
    False := by
  unfold keyLt at *; omega

/-! ## `pyMax` returns a maximum (the earliest one) -/

theorem pyMax_go (key : β → ℕ × ℤ) (rest : List β) :
    ∀ acc : β,
      (rest.foldl (fun best x => if keyLt (key best) (key x) then x else best) acc = acc ∨
        rest.foldl (fun best x => if keyLt (key best) (key x) then x else best) acc ∈ rest) ∧
      ¬ keyLt (key (rest.foldl (fun best x => if keyLt (key best) (key x) then x else best) acc))
          (key acc) ∧
      ∀ x ∈ rest,
        ¬ keyLt (key (rest.foldl (fun best x => if keyLt (key best) (key x) then x else best) acc))
          (key x) := by
  induction rest with
  | nil => exact fun acc => ⟨Or.inl rfl, keyLt_irrefl _, by simp⟩
  | cons x rest ih =>
    intro acc
    simp only [List.foldl_cons]
    by_cases h : keyLt (key acc) (key x)
    · rw [if_pos h]
      obtain ⟨hmem, hacc, hall⟩ := ih x
      refine ⟨?_, ?_, ?_⟩
      · rcases hmem with h' | h' <;> simp [h']
      · intro hk; exact hacc (keyLt_trans hk h)
      · intro y hy
        rcases List.mem_cons.1 hy with rfl | hy'
        · exact hacc
        · exact hall y hy'
    · rw [if_neg h]
      obtain ⟨hmem, hacc, hall⟩ := ih acc
      refine ⟨?_, hacc, ?_⟩
      · rcases hmem with h' | h' <;> simp [h']
      · intro y hy
        rcases List.mem_cons.1 hy with rfl | hy'
        · intro hk; exact keyLt_resolve hk h hacc
        · exact hall y hy'

theorem pyMax_spec (key : β → ℕ × ℤ) (l : List β) (hne : l ≠ []) :
    ∃ m, pyMax key l = some m ∧ m ∈ l ∧ ∀ x ∈ l, ¬ keyLt (key m) (key x) := by
  cases l with
  | nil => exact absurd rfl hne
  | cons b bs =>
    obtain ⟨hmem, hacc, hall⟩ := pyMax_go key bs b
    refine ⟨_, rfl, ?_, ?_⟩
    · rcases hmem with h' | h' <;> simp [h']
    · intro x hx
      rcases List.mem_cons.1 hx with rfl | hx'
      · exact hacc
      · exact hall x hx'

/-! ## `runs` on a sorted list produces each distinct value once, with its count -/

theorem runs_ne_nil [DecidableEq α] (a : α) (t : List α) : runs (a :: t) ≠ [] := by
  unfold runs
  cases runs t with
  | nil => simp
  | cons hd rest =>
    obtain ⟨b, n⟩ := hd
    by_cases h : a = b <;> simp [h]

theorem runs_cons_head [DecidableEq α] (a : α) (t : List α) :
    ∃ n rest, runs (a :: t) = (a, n) :: rest := by
  unfold runs
  cases runs t with
  | nil => exact ⟨1, [], rfl⟩
  | cons hd rest =>
    obtain ⟨b, n⟩ := hd
    by_cases h : a = b
    · subst h; exact ⟨n + 1, rest, by simp⟩
    · exact ⟨1, (b, n) :: rest, by simp [h]⟩

theorem runs_sorted_spec [LinearOrder α] :
    ∀ l : List α, l.Sorted (· ≤ ·) →
      ((runs l).map Prod.fst).Nodup ∧
      (∀ p ∈ runs l, p.1 ∈ l ∧ p.2 = l.count p.1) ∧
      (∀ v ∈ l, ∃ n, (v, n) ∈ runs l) := by
  intro l
  induction l with
  | nil => intro _; simp [runs]
  | cons a t ih =>
    intro hsort
    obtain ⟨ha, ht⟩ := List.sorted_cons.1 hsort
    obtain ⟨hnd, hval, hcov⟩ := ih ht
    cases htr : runs t with
    | nil =>
      have htnil : t = [] := by
        cases t with
        | nil => rfl
        | cons c s => exact absurd htr (runs_ne_nil c s)
      subst htnil
      refine ⟨by simp [runs], ?_, ?_⟩
      · intro p hp
        simp only [runs] at hp
        simp at hp
        subst hp
        simp
      · intro v hv
        simp at hv
        subst hv
        exact ⟨1, by simp [runs]⟩
    | cons hd rest =>
      obtain ⟨b, n⟩ := hd
      have hbt : b ∈ t ∧ n = t.count b := hval (b, n) (htr ▸ List.mem_cons_self _ _)
      have hrun : runs (a :: t) =
          if a = b then (a, n + 1) :: rest else (a, 1) :: (b, n) :: rest := by
        unfold runs
        rw [htr]
      by_cases hab : a = b
      · subst hab
        rw [if_pos rfl] at hrun
        rw [htr] at hnd hval hcov
        simp only [List.map_cons, List.nodup_cons] at hnd
        obtain ⟨hak, hrk⟩ := hnd
        refine ⟨?_, ?_, ?_⟩
        · rw [hrun]
          simp only [List.map_cons, List.nodup_cons]
          exact ⟨hak, hrk⟩
        · intro p hp
          rw [hrun] at hp
          rcases List.mem_cons.1 hp with rfl | hp'
          · simp only
            constructor
            · exact List.mem_cons_self _ _
            · rw [List.count_cons_self]
              omega
          · have hv' := hval p (List.mem_cons_of_mem _ hp')
            have hpa : p.1 ≠ a := by
              intro hpa
              exact hak (hpa ▸ List.mem_map_of_mem Prod.fst hp')
            constructor
            · exact List.mem_cons_of_mem _ hv'.1
            · rw [List.count_cons_of_ne hpa, hv'.2]
        · intro v hv
          rcases List.mem_cons.1 hv with rfl | hv'
          · exact ⟨n + 1, hrun ▸ List.mem_cons_self _ _⟩
          · obtain ⟨m, hm⟩ := hcov v hv'
            rcases List.mem_cons.1 hm with hm' | hm'
            · have : v = a := by
                have := congrArg Prod.fst hm'
                simpa using this
              subst this
              exact ⟨n + 1, hrun ▸ List.mem_cons_self _ _⟩
            · exact ⟨m, hrun ▸ List.mem_cons_of_mem _ hm'⟩
      · rw [if_neg hab] at hrun
        have hat : a ∉ t := by
          intro hat
          cases t with
          | nil => simp at hat
          | cons c s =>
            obtain ⟨n', rest', hh⟩ := runs_cons_head c s
            rw [htr] at hh
            have hbc : b = c := by
              have := congrArg (fun xs => (List.head? xs).map Prod.fst) hh
              simpa using this
            rcases List.mem_cons.1 hat with rfl | has
            · exact hab hbc.symm
            · obtain ⟨hc, hs⟩ := List.sorted_cons.1 ht
              have h1 : a ≤ c := ha c (List.mem_cons_self _ _)
              have h2 : c ≤ a := hc a has
              exact hab ((le_antisymm h1 h2).trans hbc.symm)
        refine ⟨?_, ?_, ?_⟩
        · rw [hrun, ← htr]
          simp only [List.map_cons, List.nodup_cons, ← htr] at hnd ⊢
          rw [htr] at hnd ⊢
          refine ⟨?_, hnd⟩
          intro hmem
          simp only [List.mem_map] at hmem
          obtain ⟨p, hp, hpa⟩ := hmem
          rw [htr] at hval
          exact hat (hpa ▸ (hval p hp).1)
        · intro p hp
          rw [hrun] at hp
          rcases List.mem_cons.1 hp with rfl | hp'
          · refine ⟨List.mem_cons_self _ _, ?_⟩
            rw [List.count_cons_self, List.count_eq_zero.2 hat]
          · have hv' := hval p (htr ▸ hp')
            have hpa : p.1 ≠ a := fun h => hat (h ▸ hv'.1)
            exact ⟨List.mem_cons_of_mem _ hv'.1, by rw [List.count_cons_of_ne hpa, hv'.2]⟩
        · intro v hv
          rcases List.mem_cons.1 hv with rfl | hv'
          · exact ⟨1, hrun ▸ List.mem_cons_self _ _⟩
          · obtain ⟨m, hm⟩ := hcov v hv'
            exact ⟨m, hrun ▸ List.mem_cons_of_mem _ (htr ▸ hm)⟩

/-! ## Specification of `classify`: majority label, earliest-first-occurrence tie-break -/

theorem classify_spec [LinearOrder α] (l : List α) (hne : l ≠ []) :
    ∃ m, classify l = some m ∧ m ∈ l ∧
      (∀ v ∈ l, l.count v ≤ l.count m) ∧
      (∀ v ∈ l, l.count v = l.count m → l.indexOf m ≤ l.indexOf v) := by
  have hperm : List.Perm (l.insertionSort (· ≤ ·)) l := List.perm_insertionSort _ l
  have hsorted : (l.insertionSort (· ≤ ·)).Sorted (· ≤ ·) := List.sorted_insertionSort _ l
  obtain ⟨hnd, hval, hcov⟩ := runs_sorted_spec _ hsorted
  have hsne : l.insertionSort (· ≤ ·) ≠ [] := by
    intro h
    exact hne (List.Perm.eq_nil (h ▸ hperm.symm))
  have hrne : runs (l.insertionSort (· ≤ ·)) ≠ [] := by
    cases hs : l.insertionSort (· ≤ ·) with
    | nil => exact absurd hs hsne
    | cons a t => exact runs_ne_nil a t
  obtain ⟨r, hmax, hmem, hkey⟩ :=
    pyMax_spec (fun r => (r.2, -(l.indexOf r.1 : ℤ))) _ hrne
  have hrcount : r.2 = l.count r.1 := by
    rw [(hval r hmem).2, hperm.count_eq]
  refine ⟨r.1, ?_, ?_, ?_, ?_⟩
  · unfold classify
    rw [hmax]
    rfl
  · exact hperm.mem_iff.1 (hval r hmem).1
  · intro v hv
    obtain ⟨nv, hnv⟩ := hcov v (hperm.mem_iff.2 hv)
    have hnv' : nv = l.count v := by
      have h := (hval (v, nv) hnv).2
      simpa using h.trans (hperm.count_eq v)
    have hk := hkey (v, nv) hnv
    unfold keyLt at hk
    simp only [not_or, not_and, not_lt] at hk
    rw [← hrcount, ← hnv']
    exact hk.1
  · intro v hv hcount
    obtain ⟨nv, hnv⟩ := hcov v (hperm.mem_iff.2 hv)
    have hnv' : nv = l.count v := by
      have h := (hval (v, nv) hnv).2
      simpa using h.trans (hperm.count_eq v)
    have hk := hkey (v, nv) hnv
    unfold keyLt at hk
    dsimp only at hk
    push_neg at hk
    have h2 := hk.2 (by omega)
    omega

/-- C1: for every query row, the majority classification over the top-100
neighbor labels (`classify(sorted_labels[:100])`, lines 445 and 379-382)
returns a label present in that window with the maximum occurrence count
there, and when several labels tie for the maximum count it returns the
tied label whose first occurrence appears earliest in neighbor rank
order (closest to the query). -/
theorem C1_top100_majority [LinearOrder α] (ls : List α) (hne : ls ≠ []) :
    ∃ m, classify (ls.take 100) = some m ∧ m ∈ ls.take 100 ∧
      (∀ v ∈ ls.take 100, (ls.take 100).count v ≤ (ls.take 100).count m) ∧
      (∀ v ∈ ls.take 100, (ls.take 100).count v = (ls.take 100).count m →
        (ls.take 100).indexOf m ≤ (ls.take 100).indexOf v) :=
  classify_spec (ls.take 100) (by
    intro h
    rcases List.take_eq_nil_iff.1 h with h' | h' <;> simp_all)

/-- Witness for C1 at the concrete window `[0, 0, 1]` (the spec's §8
scenario with labels A, A, B encoded as naturals). -/
theorem C1_top100_majority_witness :
    ([0, 0, 1] : List ℕ) ≠ [] ∧
      ∃ m, classify (([0, 0, 1] : List ℕ).take 100) = some m ∧
        m ∈ ([0, 0, 1] : List ℕ).take 100 ∧
        (∀ v ∈ ([0, 0, 1] : List ℕ).take 100,
          (([0, 0, 1] : List ℕ).take 100).count v ≤ (([0, 0, 1] : List ℕ).take 100).count m) ∧
        (∀ v ∈ ([0, 0, 1] : List ℕ).take 100,
          (([0, 0, 1] : List ℕ).take 100).count v = (([0, 0, 1] : List ℕ).take 100).count m →
          (([0, 0, 1] : List ℕ).take 100).indexOf m ≤ (([0, 0, 1] : List ℕ).take 100).indexOf v) :=
  ⟨by decide, C1_top100_majority [0, 0, 1] (by decide)⟩

/-- C4: when the database has fewer than 100 (resp. fewer than 5) rows,
every top-k per-query operation (lines 428-447: the `[:100]` and `[:5]`
slices feeding the top-5 label multiset, the mean top-5 distance, the
top-100 majority classification, and the top-100 target-label counts)
operates on all available neighbors and succeeds: Python's clamping
slice is `List.take`, which returns the whole list when it is shorter
than the bound, `classify` returns a value, and the top-5 mean is taken
over a nonempty list. -/
theorem C4_small_database [LinearOrder α] (ds : List ℚ) (ls : List α)
    (hne : ls ≠ []) (hlen : ds.length = ls.length) (hlt : ls.length < 100) :
    ls.take 100 = ls ∧ ds.take 100 = ds ∧
    classify (ls.take 100) = classify ls ∧ (classify (ls.take 100)).isSome = true ∧
    (∀ lab, (ls.take 100).count lab = ls.count lab) ∧
    ds.take 5 ≠ [] ∧
    (ls.length < 5 → ls.take 5 = ls ∧ ds.take 5 = ds ∧ npMean (ds.take 5) = npMean ds) := by
  have h1 : ls.take 100 = ls := List.take_of_length_le (by omega)
  have h2 : ds.take 100 = ds := List.take_of_length_le (by omega)
  have hds : ds ≠ [] := by
    intro h
    rw [h] at hlen
    exact hne (List.eq_nil_of_length_eq_zero hlen.symm)
  refine ⟨h1, h2, by rw [h1], ?_, by rw [h1]; exact fun _ => rfl, ?_, ?_⟩
  · obtain ⟨m, hm, -⟩ := classify_spec ls hne
    rw [h1, hm]
    rfl
  · intro h
    rcases List.take_eq_nil_iff.1 h with h' | h' <;> simp_all
  · intro h5
    have h3 : ls.take 5 = ls := List.take_of_length_le (by omega)
    have h4 : ds.take 5 = ds := List.take_of_length_le (by omega)
    exact ⟨h3, h4, by rw [h4]⟩

/-- Witness for C4 at the spec's §8 scenario: 3 database rows with
labels `[A, A, B]` (encoded `[0, 0, 1]`) and distances `[1, 2, 3]`. -/
theorem C4_small_database_witness :
    ([0, 0, 1] : List ℕ) ≠ [] ∧ ([1, 2, 3] : List ℚ).length = ([0, 0, 1] : List ℕ).length ∧
      ([0, 0, 1] : List ℕ).length < 100 ∧
      (([0, 0, 1] : List ℕ).take 100 = [0, 0, 1] ∧ ([1, 2, 3] : List ℚ).take 100 = [1, 2, 3] ∧
        classify (([0, 0, 1] : List ℕ).take 100) = classify ([0, 0, 1] : List ℕ) ∧
        (classify (([0, 0, 1] : List ℕ).take 100)).isSome = true ∧
        (∀ lab, (([0, 0, 1] : List ℕ).take 100).count lab = ([0, 0, 1] : List ℕ).count lab) ∧
        ([1, 2, 3] : List ℚ).take 5 ≠ [] ∧
        (([0, 0, 1] : List ℕ).length < 5 → ([0, 0, 1] : List ℕ).take 5 = [0, 0, 1] ∧
          ([1, 2, 3] : List ℚ).take 5 = [1, 2, 3] ∧
          npMean (([1, 2, 3] : List ℚ).take 5) = npMean [1, 2, 3])) :=
  ⟨by decide, by decide, by decide,
    C4_small_database [1, 2, 3] [0, 0, 1] (by decide) (by decide) (by decide)⟩

/-! ## Coarse control/disease aggregation -/

theorem coarseClfs_go (cls : List (String × List α)) :
    ∀ acc : List α × List α,
      cls.foldl
        (fun acc p =>
          if pyIn "control" p.1 then (acc.1 ++ p.2, acc.2)
          else if pyIn "disease" p.1 then (acc.1, acc.2 ++ p.2)
          else acc)
        acc =
      (acc.1 ++ (cls.filter (fun p => pyIn "control" p.1)).flatMap (fun p => p.2),
       acc.2 ++ (cls.filter (fun p => !pyIn "control" p.1 && pyIn "disease" p.1)).flatMap
         (fun p => p.2)) := by
  induction cls with
  | nil => intro acc; simp
  | cons p rest ih =>
    intro acc
    simp only [List.foldl_cons, List.filter_cons]
    cases hc : pyIn "control" p.1
    · cases hd : pyIn "disease" p.1
      · simp [hc, hd, ih acc]
      · simp [hc, hd, ih (acc.1, acc.2 ++ p.2), List.append_assoc]
    · simp [hc, ih (acc.1 ++ p.2, acc.2), List.append_assoc]

theorem coarseClfs_eq (cls : List (String × List α)) :
    coarseClfs cls =
      ((cls.filter (fun p => pyIn "control" p.1)).flatMap (fun p => p.2),
       (cls.filter (fun p => !pyIn "control" p.1 && pyIn "disease" p.1)).flatMap
         (fun p => p.2)) := by
  have h := coarseClfs_go cls ([], [])
  simpa [coarseClfs] using h

/-- C10: when a Query Group name contains both `"control"` and
`"disease"`, its records are assigned to the control list only — the
`elif` on line 246 gives the `"control"` check precedence, the
record's classifications all land in `control_clfs`, and the disease
list is exactly what it would be with the record absent, so no record
is counted in both coarse groups. -/
theorem C10_control_precedence (pre post : List (String × List α)) (p : String × List α)
    (hc : pyIn "control" p.1 = true) (hd : pyIn "disease" p.1 = true) :
    (∀ x ∈ p.2, x ∈ (coarseClfs (pre ++ p :: post)).1) ∧
    (coarseClfs (pre ++ p :: post)).2 = (coarseClfs (pre ++ post)).2 := by
  rw [coarseClfs_eq, coarseClfs_eq]
  constructor
  · intro x hx
    exact List.mem_flatMap.2 ⟨p, List.mem_filter.2 ⟨by simp, by simp [hc]⟩, hx⟩
  · simp [List.filter_append, List.filter_cons, hc, hd]

/-- Witness for C10 at a concrete group whose name contains both
markers. -/
theorem C10_control_precedence_witness :
    pyIn "control" ("this_control_disease_x", ([7] : List ℕ)).1 = true ∧
    pyIn "disease" ("this_control_disease_x", ([7] : List ℕ)).1 = true ∧
    ((∀ x ∈ ("this_control_disease_x", ([7] : List ℕ)).2,
        x ∈ (coarseClfs ([] ++ ("this_control_disease_x", ([7] : List ℕ)) ::
          [("disease_3m", [5])])).1) ∧
      (coarseClfs ([] ++ ("this_control_disease_x", ([7] : List ℕ)) ::
          [("disease_3m", [5])])).2 =
        (coarseClfs (([] : List (String × List ℕ)) ++ [("disease_3m", [5])])).2) :=
  ⟨by decide, by decide,
    C10_control_precedence [] [("disease_3m", [5])] ("this_control_disease_x", [7])
      (by decide) (by decide)⟩

/-- C9 counterexample: the claim says every record whose name contains
`"disease"` is assigned to the disease list.  The name
`"control_disease"` contains `"disease"`, yet the record's
classifications go to the control list and the disease list stays
empty (the `elif` on line 246 never runs when `"control"` matched). -/
theorem C9_counterexample :
    pyIn "disease" "control_disease" = true ∧
    (coarseClfs ([("control_disease", [0])] : List (String × List ℕ))).2 = [] ∧
    (coarseClfs ([("control_disease", [0])] : List (String × List ℕ))).1 = [0] := by
  decide

/-- C9 as amended: a record whose name contains `"control"` goes to the
control list; a record whose name contains `"disease"` but not
`"control"` goes to the disease list; a record whose name contains
neither is silently excluded (removing it changes nothing, and the
aggregation is a total function — no error is raised). -/
theorem C9_coarse_grouping (pre post : List (String × List α)) (p : String × List α) :
    (pyIn "control" p.1 = true → ∀ x ∈ p.2, x ∈ (coarseClfs (pre ++ p :: post)).1) ∧
    (pyIn "control" p.1 = false → pyIn "disease" p.1 = true →
      ∀ x ∈ p.2, x ∈ (coarseClfs (pre ++ p :: post)).2) ∧
    (pyIn "control" p.1 = false → pyIn "disease" p.1 = false →
      coarseClfs (pre ++ p :: post) = coarseClfs (pre ++ post)) := by
  refine ⟨?_, ?_, ?_⟩
  · intro hc x hx
    rw [coarseClfs_eq]
    exact List.mem_flatMap.2 ⟨p, List.mem_filter.2 ⟨by simp, by simp [hc]⟩, hx⟩
  · intro hc hd x hx
    rw [coarseClfs_eq]
    exact List.mem_flatMap.2 ⟨p, List.mem_filter.2 ⟨by simp, by simp [hc, hd]⟩, hx⟩
  · intro hc hd
    rw [coarseClfs_eq, coarseClfs_eq]
    simp [List.filter_append, List.filter_cons, hc, hd]

/-- Witness for C9 (amended) covering all three branches at concrete
records. -/
theorem C9_coarse_grouping_witness :
    ((pyIn "control" ("control_3m", ([1] : List ℕ)).1 = true →
        ∀ x ∈ ("control_3m", ([1] : List ℕ)).2,
          x ∈ (coarseClfs ([] ++ ("control_3m", ([1] : List ℕ)) :: [("other", [9])])).1) ∧
      (pyIn "control" ("control_3m", ([1] : List ℕ)).1 = false →
        pyIn "disease" ("control_3m", ([1] : List ℕ)).1 = true →
        ∀ x ∈ ("control_3m", ([1] : List ℕ)).2,
          x ∈ (coarseClfs ([] ++ ("control_3m", ([1] : List ℕ)) :: [("other", [9])])).2) ∧
      (pyIn "control" ("control_3m", ([1] : List ℕ)).1 = false →
        pyIn "disease" ("control_3m", ([1] : List ℕ)).1 = false →
        coarseClfs ([] ++ ("control_3m", ([1] : List ℕ)) :: [("other", [9])]) =
          coarseClfs (([] : List (String × List ℕ)) ++ [("other", [9])]))) ∧
    (1 : ℕ) ∈ (coarseClfs ([("control_3m", [1]), ("other", [9])] :
      List (String × List ℕ))).1 :=
  ⟨C9_coarse_grouping [] [("other", [9])] ("control_3m", [1]),
    (C9_coarse_grouping [] [("other", [9])] ("control_3m", [1])).1 (by decide) 1 (by decide)⟩

/-- C8 evaluation at the failing input: when no Query Group name
contains `"control"` (here the single group `"disease_3m"`), the
control classification list is empty, so line 282
(`control_fracs = control_counts / len(control_clfs)`) divides by
`len(control_clfs) = 0` with no guard. -/
theorem C8_unguarded_division :
    (coarseClfs ([("disease_3m", [0])] : List (String × List ℕ))).1 = [] ∧
    (coarseClfs ([("disease_3m", [0])] : List (String × List ℕ))).1.length = 0 ∧
    (coarseClfs ([("disease_3m", [0])] : List (String × List ℕ))).2 = [0] := by
  decide

/-! ## Enrichment selector -/

/-- C5: the Enrichment Selector (lines 368-377) keeps exactly the
entries whose count-A strictly exceeds the threshold — an identifier is
selected iff some entry carries it with `threshold < count-A` (a count
equal to the threshold never qualifies) — and the written report pairs
each selected identifier with its 5 nearest database cell identifiers
from the `top_5_nearest_cells` mapping. -/
theorem C5_enrichment_selection (cl : List (String × ℕ × ℕ)) (top5 : String → List String)
    (t : ℕ) :
    (∀ id, id ∈ enrichedKeep cl t ↔ ∃ a b, (id, a, b) ∈ cl ∧ t < a) ∧
    enrichedReport cl top5 t = (enrichedKeep cl t).map (fun id => (id, top5 id)) := by
  constructor
  · intro id
    simp only [enrichedKeep, List.mem_map, List.mem_filter]
    constructor
    · rintro ⟨⟨i, a, b⟩, ⟨hmem, hlt⟩, rfl⟩
      exact ⟨a, b, hmem, by simpa using hlt⟩
    · rintro ⟨a, b, hmem, hlt⟩
      exact ⟨(id, a, b), ⟨hmem, by simpa using hlt⟩, rfl⟩
  · simp only [enrichedReport, enrichedKeep, List.map_map]
    rfl

/-- Witness for C5 at the spec's §8 scenario: threshold 70, counts
`[80, 65, 71]` for identifiers `[s1, s2, s3]` select `[s1, s3]` and
exclude `s2`. -/
theorem C5_enrichment_selection_witness :
    (("s1" ∈ enrichedKeep [("s1", 80, 0), ("s2", 65, 0), ("s3", 71, 0)] 70) ↔
      ∃ a b, ("s1", a, b) ∈ [("s1", 80, 0), ("s2", 65, 0), ("s3", 71, 0)] ∧ 70 < a) ∧
    enrichedKeep [("s1", 80, 0), ("s2", 65, 0), ("s3", 71, 0)] 70 = ["s1", "s3"] ∧
    "s2" ∉ enrichedKeep [("s1", 80, 0), ("s2", 65, 0), ("s3", 71, 0)] 70 :=
  ⟨(C5_enrichment_selection [("s1", 80, 0), ("s2", 65, 0), ("s3", 71, 0)]
      (fun _ => []) 70).1 "s1",
    by decide, by decide⟩

/-! ## `nearest_dist_to_each_type`: one entry per distinct label, first-occurrence distance -/

theorem lookup_isSome_iff [DecidableEq α] (lab : α) (l : List (α × ℚ)) :
    (l.lookup lab).isSome = true ↔ lab ∈ l.map Prod.fst := by
  induction l with
  | nil => simp
  | cons p rest ih =>
    obtain ⟨a, b⟩ := p
    by_cases h : lab = a
    · subst h
      simp [List.lookup]
    · have hb : (lab == a) = false := beq_eq_false_iff_ne.2 h
      simp [List.lookup, hb, ih, h]

theorem ndte_go [DecidableEq α] (pairs : List (ℚ × α)) :
    ∀ (acc : List (α × ℚ)) (lab : α),
      ((pairs.foldl
        (fun acc p => if (acc.map Prod.fst).contains p.2 then acc else acc ++ [(p.2, p.1)])
        acc).lookup lab) =
      (acc.lookup lab).or ((pairs.find? (fun p => p.2 == lab)).map Prod.fst) := by
  induction pairs with
  | nil => intro acc lab; simp
  | cons p rest ih =>
    intro acc lab
    simp only [List.foldl_cons]
    by_cases hmem : ((acc.map Prod.fst).contains p.2) = true
    · rw [if_pos hmem, ih acc lab]
      by_cases hl : p.2 = lab
      · subst hl
        have hsome : (acc.lookup p.2).isSome = true :=
          (lookup_isSome_iff p.2 acc).2 (List.elem_iff.1 hmem)
        obtain ⟨v, hv⟩ := Option.isSome_iff_exists.1 hsome
        rw [hv]
        simp
      · rw [List.find?_cons_of_neg _ (by simp [hl])]
    · rw [if_neg hmem, ih (acc ++ [(p.2, p.1)]) lab, List.lookup_append]
      by_cases hl : p.2 = lab
      · subst hl
        have hnone : acc.lookup p.2 = none := by
          cases h : acc.lookup p.2 with
          | none => rfl
          | some v =>
            exact absurd (List.elem_iff.2 ((lookup_isSome_iff p.2 acc).1 (by rw [h]; rfl)))
              hmem
        rw [hnone, List.find?_cons_of_pos _ (by simp)]
        simp [List.lookup]
      · have hb : (lab == p.2) = false := beq_eq_false_iff_ne.2 (Ne.symm hl)
        rw [List.find?_cons_of_neg _ (by simp [hl])]
        simp [List.lookup, hb]
    
theorem ndte_keys_nodup [DecidableEq α] (pairs : List (ℚ × α)) :
    ∀ acc : List (α × ℚ), (acc.map Prod.fst).Nodup →
      ((pairs.foldl
        (fun acc p => if (acc.map Prod.fst).contains p.2 then acc else acc ++ [(p.2, p.1)])
        acc).map Prod.fst).Nodup := by
  induction pairs with
  | nil => intro acc h; exact h
  | cons p rest ih =>
    intro acc h
    simp only [List.foldl_cons]
    by_cases hmem : ((acc.map Prod.fst).contains p.2) = true
    · rw [if_pos hmem]; exact ih acc h
    · rw [if_neg hmem]
      apply ih
      rw [List.map_append]
      refine List.Nodup.append h (by simp) ?_
      intro a ha hb
      simp at hb
      subst hb
      exact hmem (List.elem_iff.2 ha)

theorem find_zip_first [DecidableEq α] :
    ∀ (ds : List ℚ) (ls : List α) (i : ℕ) (lab : α) (dist : ℚ),
      ls[i]? = some lab → ds[i]? = some dist →
      (∀ j, j < i → ls[j]? ≠ some lab) →
      ((ds.zip ls).find? (fun p => p.2 == lab)).map Prod.fst = some dist := by
  intro ds
  induction ds with
  | nil => intro ls i lab dist h1 h2 h3; simp at h2
  | cons d ds ih =>
    intro ls i lab dist h1 h2 h3
    cases ls with
    | nil => simp at h1
    | cons l ls =>
      cases i with
      | zero =>
        simp only [List.getElem?_cons_zero, Option.some.injEq] at h1 h2
        subst h1
        subst h2
        rw [List.zip_cons_cons, List.find?_cons_of_pos _ (by simp)]
        rfl
      | succ i =>
        have hne : l ≠ lab := by
          have h0 := h3 0 (Nat.succ_pos i)
          simpa using h0
        rw [List.zip_cons_cons, List.find?_cons_of_neg _ (by simp [hne])]
        refine ih ls i lab dist (by simpa using h1) (by simpa using h2) ?_
        intro j hj
        have hj1 := h3 (j + 1) (by omega)
        simpa using hj1

/-- C3: for every query row, the nearest-distance-per-label mapping
(`nearest_dist_to_each_type(sorted_distances, sorted_labels)`, lines
154-159 and 435) has no duplicate labels, contains a label exactly when
it occurs in the rank-ordered database label sequence (never a label
absent from it), and records for each label the distance at that
label's first occurrence in ascending rank order. -/
theorem C3_nearest_dist [DecidableEq α] (ds : List ℚ) (ls : List α)
    (hlen : ds.length = ls.length) :
    ((nearest_dist_to_each_type ds ls).map Prod.fst).Nodup ∧
    (∀ lab, ((nearest_dist_to_each_type ds ls).lookup lab).isSome = true ↔ lab ∈ ls) ∧
    (∀ (i : ℕ) (lab : α) (dist : ℚ), ls[i]? = some lab → ds[i]? = some dist →
      (∀ j, j < i → ls[j]? ≠ some lab) →
      (nearest_dist_to_each_type ds ls).lookup lab = some dist) := by
  have hzip : (ds.zip ls).map Prod.snd = ls := List.map_snd_zip ds ls (by omega)
  refine ⟨?_, ?_, ?_⟩
  · exact ndte_keys_nodup (ds.zip ls) [] (by simp)
  · intro lab
    unfold nearest_dist_to_each_type
    rw [ndte_go (ds.zip ls) [] lab]
    simp only [List.lookup_nil, Option.none_or, Option.isSome_map']
    rw [List.find?_isSome]
    constructor
    · rintro ⟨x, hx, hpred⟩
      have : x.2 = lab := by simpa using hpred
      exact this ▸ (hzip ▸ List.mem_map_of_mem Prod.snd hx)
    · intro hlab
      rw [← hzip] at hlab
      obtain ⟨x, hx, hxl⟩ := List.mem_map.1 hlab
      exact ⟨x, hx, by simp [hxl]⟩
  · intro i lab dist h1 h2 h3
    unfold nearest_dist_to_each_type
    rw [ndte_go (ds.zip ls) [] lab]
    simp only [List.lookup_nil, Option.none_or]
    exact find_zip_first ds ls i lab dist h1 h2 h3

/-- Witness for C3 at the spec's §8 scenario (labels `[B, A, A]`
encoded `[5, 4, 4]`, sorted distances `[1, 2, 3]`): label `4` first
occurs at rank 1 with distance `2`. -/
theorem C3_nearest_dist_witness :
    ([1, 2, 3] : List ℚ).length = ([5, 4, 4] : List ℕ).length ∧
    (((nearest_dist_to_each_type [1, 2, 3] ([5, 4, 4] : List ℕ)).lookup 4).isSome = true ↔
      (4 : ℕ) ∈ ([5, 4, 4] : List ℕ)) ∧
    (nearest_dist_to_each_type [1, 2, 3] ([5, 4, 4] : List ℕ)).lookup 4 = some 2 :=
  ⟨by decide, (C3_nearest_dist [1, 2, 3] [5, 4, 4] (by decide)).2.1 4,
    (C3_nearest_dist [1, 2, 3] [5, 4, 4] (by decide)).2.2 1 4 2 (by decide) (by decide)
      (by
        intro j hj
        have hj0 : j = 0 := by omega
        subst hj0
        decide)⟩

/-! ## Contingency fractions and binomial-test inputs -/

theorem sum_counts_eq_length [DecidableEq α] :
    ∀ ls c : List α, ls.Nodup → (∀ x ∈ c, x ∈ ls) →
      (ls.map (fun lab => c.count lab)).sum = c.length := by
  intro ls
  induction ls with
  | nil =>
    intro c _ hsub
    have hc : c = [] := List.eq_nil_iff_forall_not_mem.2 (fun x hx => by simpa using hsub x hx)
    simp [hc]
  | cons a t ih =>
    intro c hnd hsub
    obtain ⟨hat, hndt⟩ := List.nodup_cons.1 hnd
    simp only [List.map_cons, List.sum_cons]
    have hcongr : t.map (fun lab => c.count lab) =
        t.map (fun lab => (c.filter (fun y => !(y == a))).count lab) := by
      refine List.map_eq_map_iff.mpr ?_
      intro x hx
      have hxa : (x == a) = false := beq_eq_false_iff_ne.2 (fun h => hat (h ▸ hx))
      exact (List.count_filter (by simp [hxa])).symm
    rw [hcongr, ih (c.filter (fun y => !(y == a))) hndt ?_]
    · rw [List.count_eq_countP, List.countP_eq_length_filter]
      exact (List.length_eq_length_filter_add _).symm
    · intro x hx
      obtain ⟨hxc, hp⟩ := List.mem_filter.1 hx
      rcases List.mem_cons.1 (hsub x hxc) with rfl | ht
      · simp at hp
      · exact ht

theorem sum_counts_cast [DecidableEq α] (ls c : List α) (hnd : ls.Nodup)
    (hsub : ∀ x ∈ c, x ∈ ls) :
    (ls.map (fun lab => (c.count lab : ℚ))).sum = (c.length : ℚ) := by
  rw [← sum_counts_eq_length ls c hnd hsub]
  push_cast [List.map_map]
  rfl

theorem mergedDbTypes_nodup [LinearOrder α] (c d : List α) : (mergedDbTypes c d).Nodup := by
  unfold mergedDbTypes
  exact ((List.perm_insertionSort _ _).nodup_iff).2 (List.nodup_dedup _)

theorem mem_mergedDbTypes [LinearOrder α] {c d : List α} {x : α} :
    x ∈ mergedDbTypes c d ↔ x ∈ c ++ d := by
  unfold mergedDbTypes
  rw [List.mem_insertionSort, List.mem_dedup]

theorem controlFracs_sum [LinearOrder α] (c d : List α) (hc : c ≠ []) :
    (controlFracs c d).sum = 1 := by
  unfold controlFracs
  simp only [div_eq_mul_inv]
  rw [List.sum_map_mul_right,
    sum_counts_cast _ c (mergedDbTypes_nodup c d)
      (fun x hx => mem_mergedDbTypes.2 (List.mem_append_left _ hx))]
  exact mul_inv_cancel₀
    (Nat.cast_ne_zero.mpr (fun h => hc (List.eq_nil_of_length_eq_zero h)))

theorem diseaseFracs_sum [LinearOrder α] (c d : List α) (hd : d ≠ []) :
    (diseaseFracs c d).sum = 1 := by
  unfold diseaseFracs
  simp only [div_eq_mul_inv]
  rw [List.sum_map_mul_right,
    sum_counts_cast _ d (mergedDbTypes_nodup c d)
      (fun x hx => mem_mergedDbTypes.2 (List.mem_append_right _ hx))]
  exact mul_inv_cancel₀
    (Nat.cast_ne_zero.mpr (fun h => hd (List.eq_nil_of_length_eq_zero h)))

theorem keptColumns_counts_ne_zero [LinearOrder α] {c d : List α} {t : α × ℕ × ℕ}
    (ht : t ∈ keptColumns c d) : t.2.1 ≠ 0 ∧ t.2.2 ≠ 0 := by
  unfold keptColumns at ht
  have hcond := (List.mem_filter.1 ht).2
  simpa using hcond

theorem filteredControlFracs_sum [LinearOrder α] (c d : List α) (hk : keptColumns c d ≠ []) :
    (filteredControlFracs c d).sum = 1 := by
  unfold filteredControlFracs
  have hpos : 0 < ((keptColumns c d).map (fun s => (s.2.1 : ℚ))).sum := by
    refine List.sum_pos _ ?_ (by simpa using hk)
    intro x hx
    obtain ⟨t, ht, rfl⟩ := List.mem_map.1 hx
    exact_mod_cast Nat.pos_of_ne_zero (keptColumns_counts_ne_zero ht).1
  simp only [div_eq_mul_inv]
  rw [List.sum_map_mul_right]
  exact mul_inv_cancel₀ (ne_of_gt hpos)

theorem filteredDiseaseFracs_sum [LinearOrder α] (c d : List α) (hk : keptColumns c d ≠ []) :
    (filteredDiseaseFracs c d).sum = 1 := by
  unfold filteredDiseaseFracs
  have hpos : 0 < ((keptColumns c d).map (fun s => (s.2.2 : ℚ))).sum := by
    refine List.sum_pos _ ?_ (by simpa using hk)
    intro x hx
    obtain ⟨t, ht, rfl⟩ := List.mem_map.1 hx
    exact_mod_cast Nat.pos_of_ne_zero (keptColumns_counts_ne_zero ht).2
  simp only [div_eq_mul_inv]
  rw [List.sum_map_mul_right]
  exact mul_inv_cancel₀ (ne_of_gt hpos)

/-- C7 counterexample: with the nonempty classification lists
`control = [0]` and `disease = [1]`, every contingency column contains
a zero, so zero-column filtering removes all columns (line 329); the
recomputed fraction lists are then empty and sum to `0`, not `1`. -/
theorem C7_counterexample :
    (([0] : List ℕ) ≠ []) ∧ (([1] : List ℕ) ≠ []) ∧
    (filteredControlFracs ([0] : List ℕ) [1]).sum ≠ 1 ∧
    (filteredDiseaseFracs ([0] : List ℕ) [1]).sum ≠ 1 := by
  have hkept : keptColumns ([0] : List ℕ) [1] = [] := by decide
  refine ⟨by decide, by decide, ?_, ?_⟩
  · simp [filteredControlFracs, hkept]
  · simp [filteredDiseaseFracs, hkept]

/-- C7 as amended: for every pair of nonempty coarse classification
lists the per-label fractions of each group sum to 1 in the raw
contingency table (lines 272-292), and in the table recomputed after
zero-containing columns are removed (lines 329-334) they sum to 1
provided at least one column survives the filter (when none survives,
the fraction lists are empty and sum to 0). -/
theorem C7_fraction_sums [LinearOrder α] (c d : List α) (hc : c ≠ []) (hd : d ≠ [])
    (hk : keptColumns c d ≠ []) :
    (controlFracs c d).sum = 1 ∧ (diseaseFracs c d).sum = 1 ∧
    (filteredControlFracs c d).sum = 1 ∧ (filteredDiseaseFracs c d).sum = 1 :=
  ⟨controlFracs_sum c d hc, diseaseFracs_sum c d hd,
    filteredControlFracs_sum c d hk, filteredDiseaseFracs_sum c d hk⟩

/-- Witness for C7 (amended) at the spec's §8 scenario:
`control = [X, X, Y]`, `disease = [X, Y, Y]` encoded over naturals. -/
theorem C7_fraction_sums_witness :
    (([0, 0, 1] : List ℕ) ≠ [] ∧ ([0, 1, 1] : List ℕ) ≠ [] ∧
      keptColumns ([0, 0, 1] : List ℕ) [0, 1, 1] ≠ []) ∧
    ((controlFracs ([0, 0, 1] : List ℕ) [0, 1, 1]).sum = 1 ∧
      (diseaseFracs ([0, 0, 1] : List ℕ) [0, 1, 1]).sum = 1 ∧
      (filteredControlFracs ([0, 0, 1] : List ℕ) [0, 1, 1]).sum = 1 ∧
      (filteredDiseaseFracs ([0, 0, 1] : List ℕ) [0, 1, 1]).sum = 1) :=
  ⟨⟨by decide, by decide, by decide⟩,
    C7_fraction_sums [0, 0, 1] [0, 1, 1] (by decide) (by decide) (by decide)⟩

theorem binomCalls_eq [LinearOrder α] (c d : List α) :
    binomCalls c d = (mergedDbTypes c d).map (fun lab =>
      ⟨(binomInputs ((c.count lab : ℚ) / (c.length : ℚ)) ((d.count lab : ℚ) / (d.length : ℚ))).1,
        (binomInputs ((c.count lab : ℚ) / (c.length : ℚ))
          ((d.count lab : ℚ) / (d.length : ℚ))).2,
        1 / 2, "two-sided"⟩) := by
  unfold binomCalls controlFracs diseaseFracs
  rw [List.zip_map', List.map_map]
  rfl

theorem filteredBinomCalls_eq [LinearOrder α] (c d : List α) :
    filteredBinomCalls c d = (keptColumns c d).map (fun t =>
      ⟨(binomInputs ((t.2.1 : ℚ) / (((keptColumns c d).map (fun s => (s.2.1 : ℚ))).sum))
          ((t.2.2 : ℚ) / (((keptColumns c d).map (fun s => (s.2.2 : ℚ))).sum))).1,
        (binomInputs ((t.2.1 : ℚ) / (((keptColumns c d).map (fun s => (s.2.1 : ℚ))).sum))
          ((t.2.2 : ℚ) / (((keptColumns c d).map (fun s => (s.2.2 : ℚ))).sum))).2,
        1 / 2, "two-sided"⟩) := by
  unfold filteredBinomCalls filteredControlFracs filteredDiseaseFracs
  rw [List.zip_map', List.map_map]
  rfl

/-- C6: for each label column of the contingency comparison, the
significance test performed (lines 312-318 for the raw table, lines
344-350 for the zero-filtered table) is an exact binomial test at
scipy's default two-sided alternative with
`floor(1000 × control_fraction)` successes out of
`floor(1000 × control_fraction) + floor(1000 × disease_fraction)`
trials against null probability `0.5`. -/
theorem C6_binom_test_inputs [LinearOrder α] (c d : List α) :
    (∀ (i : ℕ) (lab : α), (mergedDbTypes c d)[i]? = some lab →
      (binomCalls c d)[i]? = some
        ⟨⌊(1000 : ℚ) * ((c.count lab : ℚ) / (c.length : ℚ))⌋,
          ⌊(1000 : ℚ) * ((c.count lab : ℚ) / (c.length : ℚ))⌋ +
            ⌊(1000 : ℚ) * ((d.count lab : ℚ) / (d.length : ℚ))⌋,
          1 / 2, "two-sided"⟩) ∧
    (∀ (i : ℕ) (col : α × ℕ × ℕ), (keptColumns c d)[i]? = some col →
      (filteredBinomCalls c d)[i]? = some
        ⟨⌊(1000 : ℚ) *
            ((col.2.1 : ℚ) / (((keptColumns c d).map (fun s => (s.2.1 : ℚ))).sum))⌋,
          ⌊(1000 : ℚ) *
              ((col.2.1 : ℚ) / (((keptColumns c d).map (fun s => (s.2.1 : ℚ))).sum))⌋ +
            ⌊(1000 : ℚ) *
              ((col.2.2 : ℚ) / (((keptColumns c d).map (fun s => (s.2.2 : ℚ))).sum))⌋,
          1 / 2, "two-sided"⟩) := by
  constructor
  · intro i lab h
    rw [binomCalls_eq, List.getElem?_map, h]
    rfl
  · intro i col h
    rw [filteredBinomCalls_eq, List.getElem?_map, h]
    rfl

/-- Witness for C6 at the spec's §8 scenario (first column, label
`X` encoded `0`): control fraction `2/3`, disease fraction `1/3`,
giving `floor(1000·2/3) = 666` successes of `666 + 333 = 999`
trials at null probability `1/2`. -/
theorem C6_binom_test_inputs_witness :
    (mergedDbTypes ([0, 0, 1] : List ℕ) [0, 1, 1])[0]? = some 0 ∧
    (binomCalls ([0, 0, 1] : List ℕ) [0, 1, 1])[0]? = some
      ⟨⌊(1000 : ℚ) * ((([0, 0, 1] : List ℕ).count 0 : ℚ) / (([0, 0, 1] : List ℕ).length : ℚ))⌋,
        ⌊(1000 : ℚ) *
            ((([0, 0, 1] : List ℕ).count 0 : ℚ) / (([0, 0, 1] : List ℕ).length : ℚ))⌋ +
          ⌊(1000 : ℚ) *
            ((([0, 1, 1] : List ℕ).count 0 : ℚ) / (([0, 1, 1] : List ℕ).length : ℚ))⌋,
        1 / 2, "two-sided"⟩ :=
  ⟨by decide, (C6_binom_test_inputs [0, 0, 1] [0, 1, 1]).1 0 0 (by decide)⟩
